import Mathlib

/-!
Verification of the tolerant JSON extraction and repair engine of the
rutest.ai extension (src/extension/src/services/ConfigService.ts).

The development shallowly embeds, over `List Char` / `String`:

* a model of JavaScript's `JSON.parse` (ECMA-404 grammar, values as the
  inductive `Json`; number literals are kept as their lexemes, object
  fields as association lists in insertion order);
* the repair pipeline `simpleJsonRepair`, `extractJsonCandidates`,
  `extremeJsonFallback` and `fixJsonString`, each translated branch by
  branch from the source;
* the two response-handling paths of `generateTestCases` and
  `generateAutotests` that invoke the pipeline.

All scanning functions are written with structural (or fuel-based
structural) recursion so that every definition evaluates inside the
kernel on concrete inputs.
-/

namespace Rutest

/-- Whitespace accepted by the JSON grammar (JSON.parse): space, tab,
line feed, carriage return. -/
def isJsonWs (c : Char) : Bool :=
  c = ' ' || c = '\t' || c = '\n' || c = '\r'

/-- Whitespace matched by the regex class backslash-s and by trim, in the
ASCII plus no-break-space range that the engine can encounter. -/
def isRegexWs (c : Char) : Bool :=
  c = ' ' || c = '\t' || c = '\n' || c = '\r' || c = '\x0b' || c = '\x0c' || c = ' '

/-- Drop leading JSON whitespace. -/
def skipJWs (l : List Char) : List Char := l.dropWhile isJsonWs

/-- Decimal digit test. -/
def isDigitCh (c : Char) : Bool := '0' ≤ c && c ≤ '9'

/-- Parsed JSON values.  Numbers keep their source lexeme; object fields
are kept in insertion order. -/
inductive Json where
  | null : Json
  | bool (b : Bool) : Json
  | num (lit : String) : Json
  | str (s : String) : Json
  | arr (xs : List Json) : Json
  | obj (fields : List (String × Json)) : Json

/-- Value of a single-character escape inside a JSON string literal. -/
def escChar (e : Char) : Option Char :=
  if e = '"' then some '"'
  else if e = '\\' then some '\\'
  else if e = '/' then some '/'
  else if e = 'n' then some '\n'
  else if e = 't' then some '\t'
  else if e = 'r' then some '\r'
  else if e = 'b' then some '\x08'
  else if e = 'f' then some '\x0c'
  else none

/-- Value of one hexadecimal digit. -/
def hexVal (c : Char) : Option Nat :=
  if '0' ≤ c ∧ c ≤ '9' then some (c.toNat - 48)
  else if 'a' ≤ c ∧ c ≤ 'f' then some (c.toNat - 87)
  else if 'A' ≤ c ∧ c ≤ 'F' then some (c.toNat - 55)
  else none

/-- Parse the body of a JSON string literal (the opening quote already
consumed): returns the decoded characters and the remainder after the
closing quote.  Raw control characters are rejected, escape sequences
are decoded. -/
def parseStrBody : List Char → Option (List Char × List Char)
  | [] => none
  | c :: rest =>
    if c = '"' then some ([], rest)
    else if c = '\\' then
      match rest with
      | [] => none
      | 'u' :: a :: b :: d :: e :: rest2 =>
        match hexVal a, hexVal b, hexVal d, hexVal e with
        | some ha, some hb, some hd, some he =>
          (parseStrBody rest2).map
            (fun p => (Char.ofNat (((ha * 16 + hb) * 16 + hd) * 16 + he) :: p.1, p.2))
        | _, _, _, _ => none
      | e :: rest2 =>
        match escChar e with
        | some ch => (parseStrBody rest2).map (fun p => (ch :: p.1, p.2))
        | none => none
    else if c.toNat < 32 then none
    else (parseStrBody rest).map (fun p => (c :: p.1, p.2))

/-- Exponent part of a JSON number (optional). -/
def parseExpPart (acc : List Char) (l : List Char) : Option (List Char × List Char) :=
  match l with
  | c :: rest =>
    if c = 'e' ∨ c = 'E' then
      let sr : List Char × List Char :=
        match rest with
        | s :: r => if s = '+' ∨ s = '-' then ([s], r) else ([], s :: r)
        | [] => ([], [])
      let ds := sr.2.takeWhile isDigitCh
      if ds.isEmpty then none
      else some (acc ++ [c] ++ sr.1 ++ ds, sr.2.drop ds.length)
    else some (acc, l)
  | [] => some (acc, [])

/-- Fraction part of a JSON number (optional), then exponent. -/
def parseFracPart (acc : List Char) (l : List Char) : Option (List Char × List Char) :=
  match l with
  | '.' :: rest =>
    let ds := rest.takeWhile isDigitCh
    if ds.isEmpty then none else parseExpPart (acc ++ '.' :: ds) (rest.drop ds.length)
  | _ => parseExpPart acc l

/-- Parse a JSON number lexeme: optional minus, integer part without
leading zeros, optional fraction and exponent. -/
def parseNum (l : List Char) : Option (List Char × List Char) :=
  let sl : List Char × List Char :=
    match l with
    | '-' :: r => (['-'], r)
    | _ => ([], l)
  match sl.2 with
  | '0' :: r => parseFracPart (sl.1 ++ ['0']) r
  | c :: r =>
    if isDigitCh c then
      let ds := r.takeWhile isDigitCh
      parseFracPart (sl.1 ++ c :: ds) (r.drop ds.length)
    else none
  | [] => none

/-- Parser modes: a value, the items of an array after at least one
element is required, or the members of an object after at least one
member is required. -/
inductive PMode where
  | val : PMode
  | arrItems (acc : List Json) : PMode
  | objItems (acc : List (String × Json)) : PMode

/-- Fuel-indexed JSON parser core.  Faithful to the JSON grammar used by
JSON.parse: strict commas, no trailing commas, string keys only. -/
def runP : Nat → PMode → List Char → Option (Json × List Char)
  | 0, _, _ => none
  | Nat.succ f, PMode.val, l =>
    match skipJWs l with
    | [] => none
    | 'n' :: 'u' :: 'l' :: 'l' :: rest => some (Json.null, rest)
    | 't' :: 'r' :: 'u' :: 'e' :: rest => some (Json.bool true, rest)
    | 'f' :: 'a' :: 'l' :: 's' :: 'e' :: rest => some (Json.bool false, rest)
    | '"' :: rest =>
      (match parseStrBody rest with
       | some (cs, rest2) => some (Json.str (String.mk cs), rest2)
       | none => none)
    | '[' :: rest =>
      (match skipJWs rest with
       | ']' :: r2 => some (Json.arr [], r2)
       | r1 => runP f (PMode.arrItems []) r1)
    | '{' :: rest =>
      (match skipJWs rest with
       | '}' :: r2 => some (Json.obj [], r2)
       | r1 => runP f (PMode.objItems []) r1)
    | c :: rest =>
      if c = '-' ∨ isDigitCh c then
        match parseNum (c :: rest) with
        | some (ds, rest2) => some (Json.num (String.mk ds), rest2)
        | none => none
      else none
  | Nat.succ f, PMode.arrItems acc, l =>
    match runP f PMode.val l with
    | some (v, r) =>
      (match skipJWs r with
       | ',' :: r2 => runP f (PMode.arrItems (acc ++ [v])) r2
       | ']' :: r2 => some (Json.arr (acc ++ [v]), r2)
       | _ => none)
    | none => none
  | Nat.succ f, PMode.objItems acc, l =>
    match skipJWs l with
    | '"' :: rest =>
      (match parseStrBody rest with
       | some (kcs, r1) =>
         (match skipJWs r1 with
          | ':' :: r3 =>
            (match runP f PMode.val r3 with
             | some (v, r4) =>
               (match skipJWs r4 with
                | ',' :: r6 => runP f (PMode.objItems (acc ++ [(String.mk kcs, v)])) r6
                | '}' :: r6 => some (Json.obj (acc ++ [(String.mk kcs, v)]), r6)
                | _ => none)
             | none => none)
          | _ => none)
       | none => none)
    | _ => none

/-- Model of JSON.parse: parse one value, allow only whitespace after
it; any failure (JS exception) is `none`. -/
def parseJson (s : String) : Option Json :=
  let l := s.toList
  match runP (2 * l.length + 8) PMode.val l with
  | some (v, rest) => if (skipJWs rest).isEmpty then some v else none
  | none => none

/-- Successful-parse test, as used by the repair loop's try/catch. -/
def parseOk (s : String) : Bool := (parseJson s).isSome

/-! ## The Structural Repairer: simpleJsonRepair -/

/-- Model of String.prototype.trim: drop whitespace at both ends. -/
def trimChars (l : List Char) : List Char :=
  ((l.dropWhile isRegexWs).reverse.dropWhile isRegexWs).reverse

/-- Stage 1 of simpleJsonRepair: if an object-open brace occurs and the
last object-close brace occurs strictly after it, clip to the substring
from that first open brace to that last close brace (inclusive);
otherwise leave the text unchanged.  This mirrors indexOf / lastIndexOf
/ substring in the source. -/
def clipBraces (l : List Char) : List Char :=
  let pre := l.takeWhile (fun c => c ≠ '{')
  if pre.length = l.length then l
  else
    let sufLen := (l.reverse.takeWhile (fun c => c ≠ '}')).length
    if sufLen = l.length then l
    else
      let startB := pre.length
      let lastB := l.length - 1 - sufLen
      if startB < lastB then (l.drop startB).take (lastB + 1 - startB) else l

/-- Stage 2 of simpleJsonRepair: the character loop that, inside string
literals, escapes a literal newline, replaces a literal tab by a space
and drops a literal carriage return, tracking quote and escape state. -/
def ctrlGo (inS esc : Bool) : List Char → List Char
  | [] => []
  | c :: cs =>
    if esc then c :: ctrlGo inS false cs
    else if c = '\\' then c :: ctrlGo inS true cs
    else if c = '"' then c :: ctrlGo (!inS) false cs
    else if inS ∧ c = '\n' then '\\' :: 'n' :: ctrlGo inS false cs
    else if inS ∧ c = '\t' then ' ' :: ctrlGo inS false cs
    else if inS ∧ c = '\r' then ctrlGo inS false cs
    else c :: ctrlGo inS false cs

/-- Stage 3 of simpleJsonRepair: the global regex rewrite deleting a
comma that is followed, across optional whitespace, by a closing brace
or bracket.  The scan resumes after each match, exactly as a global
regex replace does. -/
def removeTCF : Nat → List Char → List Char
  | 0, l => l
  | _ + 1, [] => []
  | fuel + 1, c :: rest =>
    if c = ',' then
      let ws := rest.takeWhile isRegexWs
      match rest.drop ws.length with
      | d :: rest2 =>
        if d = '}' ∨ d = ']' then ws ++ d :: removeTCF fuel rest2
        else ',' :: removeTCF fuel rest
      | [] => ',' :: removeTCF fuel rest
    else c :: removeTCF fuel rest

/-- Count of a character in a list, as the source's global match count. -/
def countCh (c : Char) (l : List Char) : Nat := l.count c

/-- Stage 4 of simpleJsonRepair: if the total number of quote characters
is odd, append one quote at the end. -/
def quoteFix (l : List Char) : List Char :=
  if countCh '"' l % 2 = 1 then l ++ ['"'] else l

/-- Stage 5 of simpleJsonRepair: the global regex rewrite inserting a
comma after a closing delimiter `cl` that is followed, across optional
whitespace, by a quoted-key-colon pattern.  The scan resumes after each
match, as a global regex replace does. -/
def insCommasF (cl : Char) : Nat → List Char → List Char
  | 0, l => l
  | _ + 1, [] => []
  | fuel + 1, c :: rest =>
    if c = cl then
      let ws := rest.takeWhile isRegexWs
      match rest.drop ws.length with
      | '"' :: r2 =>
        let key := r2.takeWhile (fun x => x ≠ '"')
        (match r2.drop key.length with
         | '"' :: ':' :: r4 =>
           if 1 ≤ key.length then
             c :: ',' :: (ws ++ '"' :: (key ++ '"' :: ':' :: insCommasF cl fuel r4))
           else c :: insCommasF cl fuel rest
         | _ => c :: insCommasF cl fuel rest)
      | _ => c :: insCommasF cl fuel rest
    else c :: insCommasF cl fuel rest

/-- The Structural Repairer, translated stage by stage from the source:
trim, clip to the outer braces, normalize control characters inside
strings, delete trailing separators, repair quote parity, insert
missing separators after close-brace and after close-bracket. -/
def simpleJsonRepair (s : String) : String :=
  let l0 := trimChars s.toList
  let l1 := clipBraces l0
  let l2 := ctrlGo false false l1
  let l3 := removeTCF l2.length l2
  let l4 := quoteFix l3
  let l5 := insCommasF '}' l4.length l4
  let l6 := insCommasF ']' l5.length l5
  String.mk l6

/-! ## The Candidate Locator: extractJsonCandidates -/

/-- Scanner state of extractJsonCandidates: the in-string flag, the
escape flag, the running brace depth, the recorded start position
(negative one when unset, as in the source) and the recorded spans. -/
structure CandSt where
  inStr : Bool
  esc : Bool
  depth : Int
  startPos : Int
  spans : List (Nat × Nat)

/-- One character step of the candidate scan, translated branch by
branch from the source loop: escaped characters are skipped, a
backslash sets the escape flag, a quote toggles the in-string flag,
and only outside strings an open brace bumps the depth (recording the
start at depth zero) while a close brace drops it (recording the span
when the depth returns to zero and a start was recorded). -/
def candStep (st : CandSt) (ic : Nat × Char) : CandSt :=
  if st.esc then { st with esc := false }
  else if ic.2 = '\\' then { st with esc := true }
  else if ic.2 = '"' then { st with inStr := !st.inStr }
  else if st.inStr then st
  else if ic.2 = '{' then
    { st with startPos := if st.depth = 0 then (ic.1 : Int) else st.startPos,
              depth := st.depth + 1 }
  else if ic.2 = '}' then
    if st.depth - 1 = 0 ∧ st.startPos ≠ -1 then
      { st with depth := st.depth - 1, spans := st.spans ++ [(st.startPos.toNat, ic.1 + 1)] }
    else { st with depth := st.depth - 1 }
  else st

/-- Run the candidate scan from a state and a starting index. -/
def candGo (st : CandSt) (i : Nat) : List Char → CandSt
  | [] => st
  | c :: cs => candGo (candStep st (i, c)) (i + 1) cs

/-- Initial scanner state. -/
def candInit : CandSt := ⟨false, false, 0, -1, []⟩

/-- Stable insertion of a string into a length-descending list: it goes
after every strictly longer element and before the rest. -/
def insLen (x : String) : List String → List String
  | [] => [x]
  | y :: ys => if x.length < y.length then y :: insLen x ys else x :: y :: ys

/-- Stable sort by descending length, the behaviour of the source's
comparator on Array.prototype.sort. -/
def sortByLenDesc : List String → List String
  | [] => []
  | x :: xs => insLen x (sortByLenDesc xs)

/-- The Candidate Locator: scan for top-level balanced brace spans
outside string literals, extract the corresponding substrings, and sort
them by descending length. -/
def extractJsonCandidates (s : String) : List String :=
  let st := candGo candInit 0 s.toList
  sortByLenDesc (st.spans.map (fun p => String.mk ((s.toList.drop p.1).take (p.2 - p.1))))

/-! ## The Envelope Fallback: extremeJsonFallback -/

/-- Consume a literal, ASCII case-insensitively (the regex i flag),
returning the original consumed characters and the remainder. -/
def stripCI : List Char → List Char → Option (List Char × List Char)
  | [], l => some ([], l)
  | _ :: _, [] => none
  | k :: ks, c :: cs =>
    if c.toLower = k.toLower then
      match stripCI ks cs with
      | some p => some (c :: p.1, p.2)
      | none => none
    else none

/-- Attempt the fallback key pattern at the head of the text: a quoted
key (case-insensitive), optional whitespace, a colon, optional
whitespace, an open bracket, then lazily up to the first close bracket.
Returns the matched text. -/
def matchKeyAt (key : List Char) (l : List Char) : Option (List Char) :=
  match l with
  | '"' :: r =>
    (match stripCI key r with
     | some (orig, r1) =>
       (match r1 with
        | '"' :: r2 =>
          let ws1 := r2.takeWhile isRegexWs
          (match r2.drop ws1.length with
           | ':' :: r4 =>
             let ws2 := r4.takeWhile isRegexWs
             (match r4.drop ws2.length with
              | '[' :: r6 =>
                let body := r6.takeWhile (fun x => x ≠ ']')
                (match r6.drop body.length with
                 | ']' :: _ =>
                   some ('"' :: (orig ++ '"' :: (ws1 ++ ':' :: (ws2 ++ '[' :: (body ++ [']'])))))
                 | _ => none)
              | _ => none)
           | _ => none)
        | _ => none)
     | none => none)
  | _ => none

/-- Leftmost match of the fallback key pattern anywhere in the text. -/
def findKeyArray (key : List Char) : List Char → Option (List Char)
  | [] => none
  | c :: rest =>
    match matchKeyAt key (c :: rest) with
    | some m => some m
    | none => findKeyArray key rest

/-- The Envelope Fallback: search for a test_files array pattern first,
then a test_cases array pattern, wrapping the first match in a
single-key envelope; with no match, return the empty envelope.  It
always returns a string. -/
def extremeJsonFallback (s : String) : String :=
  match findKeyArray "test_files".toList s.toList with
  | some m => "\x7b\"test_files\": " ++ String.mk m ++ "\x7d"
  | none =>
    match findKeyArray "test_cases".toList s.toList with
    | some m => "\x7b\"test_cases\": " ++ String.mk m ++ "\x7d"
    | none => "\x7b\"test_files\": []\x7d"

/-! ## The orchestrator: fixJsonString -/

/-- Repair and extraction orchestrator, translated from the source:
first the repaired whole text is parsed; on failure every candidate
span of the original text is tried as-is in order; on exhaustion the
fallback string is returned. -/
def fixJsonString (s : String) : String :=
  let repaired := simpleJsonRepair s
  if parseOk repaired then repaired
  else
    match (extractJsonCandidates s).find? parseOk with
    | some c => c
    | none => extremeJsonFallback s

/-! ## Caller paths -/

/-- Replace the first occurrence of a character by a replacement text,
the behaviour of String.prototype.replace with a one-character plain
search string. -/
def replaceFirstChar (target : Char) (repl : List Char) : List Char → List Char
  | [] => []
  | c :: rest => if c = target then repl ++ rest else c :: replaceFirstChar target repl rest

/-- Greedy array extraction regex of the test-case path: the match runs
from the leftmost open bracket that has a close bracket after it, to
the last close bracket. -/
def greedyArrayMatch : List Char → Option (List Char)
  | [] => none
  | c :: rest =>
    if c = '[' then
      let sufLen := (rest.reverse.takeWhile (fun x => x ≠ ']')).length
      if sufLen = rest.length then greedyArrayMatch rest
      else some ('[' :: rest.take (rest.length - sufLen))
    else greedyArrayMatch rest

/-- Lazy object extraction regex of the autotest path: the match runs
from the leftmost open brace that has a close brace after it, to the
first close brace after it. -/
def nonGreedyObjMatch : List Char → Option (List Char)
  | [] => none
  | c :: rest =>
    if c = '{' then
      let pre := rest.takeWhile (fun x => x ≠ '}')
      if pre.length = rest.length then nonGreedyObjMatch rest
      else some ('{' :: (pre ++ ['}']))
    else nonGreedyObjMatch rest

/-- Property lookup on a decoded value, as JavaScript member access on a
JSON.parse result: only objects have the keys, and with duplicate keys
the last assignment wins. -/
def jsGet (j : Json) (k : String) : Option Json :=
  match j with
  | Json.obj fs => (fs.reverse.find? (fun p => p.1 == k)).map (fun p => p.2)
  | _ => none

/-- Model of a number lexeme denoting zero: no nonzero mantissa digit. -/
def numLitZero (lit : String) : Bool :=
  (lit.toList.takeWhile (fun c => c ≠ 'e' ∧ c ≠ 'E')).all
    (fun c => !(isDigitCh c) || c = '0')

/-- JavaScript truthiness of an optionally-present decoded value, used
by the callers' shape checks. -/
def jsTruthy (o : Option Json) : Bool :=
  match o with
  | none => false
  | some Json.null => false
  | some (Json.bool b) => b
  | some (Json.num lit) => !numLitZero lit
  | some (Json.str s) => !s.isEmpty
  | some (Json.arr _) => true
  | some (Json.obj _) => true

/-- Response handling of generateTestCases on the local-LLM path: trim,
extract with the greedy array regex, parse; on parse failure wrap the
extract as a test_cases object, run fixJsonString and parse that; the
result must be an array under test_cases.  Any thrown exception is
`none`. -/
def generateTestCasesHandle (raw : String) : Option (List Json) :=
  let l := trimChars raw.toList
  match greedyArrayMatch l with
  | none => none
  | some m =>
    let jsonStr := String.mk m
    match parseJson jsonStr with
    | some (Json.arr xs) => some xs
    | some _ => none
    | none =>
      let wrapped := replaceFirstChar ']' " \x7d".toList
        (replaceFirstChar '[' "\x7b \"test_cases\": ".toList jsonStr.toList)
      match parseJson (fixJsonString (String.mk wrapped)) with
      | none => none
      | some data =>
        match jsGet data "test_cases" with
        | some (Json.arr xs) => some xs
        | _ => none

/-- Response handling of generateAutotests on the local-LLM path: trim,
extract with the lazy object regex, parse; on parse failure run
fixJsonString and parse that; the decoded value must have a truthy
test_files member.  Any thrown exception is `none`. -/
def generateAutotestsHandle (raw : String) : Option Json :=
  let l := trimChars raw.toList
  match nonGreedyObjMatch l with
  | none => none
  | some m =>
    let jsonStr := String.mk m
    let dataOpt :=
      match parseJson jsonStr with
      | some d => some d
      | none => parseJson (fixJsonString jsonStr)
    match dataOpt with
    | none => none
    | some data => if jsTruthy (jsGet data "test_files") then some data else none

/-! ## Spec-side definition for the quote-parity comparison -/

/-- Modelled from the spec words of the quote-parity claim: the count of
quote characters that are not immediately preceded by a backslash
(escaped quotes excluded).  This is the spec's notion; the source
counts every quote. -/
def specUnescapedQuoteCount : Option Char → List Char → Nat
  | _, [] => 0
  | prev, c :: cs =>
    (if c = '"' ∧ prev ≠ some '\\' then 1 else 0) + specUnescapedQuoteCount (some c) cs

/-! ## Helper lemmas -/

/-- Membership in a stable length-descending insertion. -/
lemma mem_insLen {x y : String} : ∀ {l : List String}, y ∈ insLen x l → y = x ∨ y ∈ l := by
  intro l
  induction l with
  | nil => intro h; simp [insLen] at h; exact Or.inl h
  | cons z zs ih =>
    intro h
    by_cases hlt : x.length < z.length
    · rw [insLen, if_pos hlt] at h
      rcases List.mem_cons.mp h with h | h
      · exact Or.inr (h ▸ List.mem_cons_self z zs)
      · rcases ih h with h | h
        · exact Or.inl h
        · exact Or.inr (List.mem_cons_of_mem z h)
    · rw [insLen, if_neg hlt] at h
      rcases List.mem_cons.mp h with h | h
      · exact Or.inl h
      · exact Or.inr h

/-- The stable insertion preserves the length-descending pairwise order. -/
lemma pairwise_insLen {x : String} :
    ∀ {l : List String}, l.Pairwise (fun a b => b.length ≤ a.length) →
      (insLen x l).Pairwise (fun a b => b.length ≤ a.length) := by
  intro l
  induction l with
  | nil => intro _; simp [insLen]
  | cons y ys ih =>
    intro h
    rcases List.pairwise_cons.mp h with ⟨hy, hys⟩
    by_cases hlt : x.length < y.length
    · rw [insLen, if_pos hlt]
      refine List.pairwise_cons.mpr ⟨?_, ih hys⟩
      intro z hz
      rcases mem_insLen hz with rfl | hz
      · exact Nat.le_of_lt hlt
      · exact hy z hz
    · rw [insLen, if_neg hlt]
      refine List.pairwise_cons.mpr ⟨?_, h⟩
      intro z hz
      rcases List.mem_cons.mp hz with rfl | hz
      · exact Nat.le_of_not_lt hlt
      · exact Nat.le_trans (hy z hz) (Nat.le_of_not_lt hlt)

/-- The candidate sort is pairwise length-descending. -/
lemma pairwise_sortByLenDesc :
    ∀ l : List String, (sortByLenDesc l).Pairwise (fun a b => b.length ≤ a.length) := by
  intro l
  induction l with
  | nil => simp [sortByLenDesc]
  | cons x xs ih => exact pairwise_insLen ih

/-- One candidate-scan step on any character other than an open brace
preserves an unset start position and the recorded spans. -/
lemma candStep_preserve {st : CandSt} {i : Nat} {c : Char} (hc : c ≠ '{')
    (hsp : st.startPos = -1) :
    (candStep st (i, c)).startPos = -1 ∧ (candStep st (i, c)).spans = st.spans := by
  unfold candStep
  split_ifs <;> simp_all

/-- A candidate scan over text without an open brace records nothing. -/
lemma candGo_no_open :
    ∀ (l : List Char) (st : CandSt) (i : Nat), '{' ∉ l → st.startPos = -1 →
      (candGo st i l).spans = st.spans ∧ (candGo st i l).startPos = -1 := by
  intro l
  induction l with
  | nil => intro st i _ hsp; exact ⟨rfl, hsp⟩
  | cons c cs ih =>
    intro st i hmem hsp
    have hc : c ≠ '{' := fun h => hmem (h ▸ List.mem_cons_self c cs)
    have hcs : '{' ∉ cs := fun h => hmem (List.mem_cons_of_mem c h)
    rcases candStep_preserve hc hsp with ⟨h1, h2⟩
    rw [candGo]
    rcases ih (candStep st (i, c)) (i + 1) hcs h1 with ⟨h3, h4⟩
    exact ⟨h3.trans h2, h4⟩

/-- Counting quotes after appending one quote. -/
lemma countCh_append_quote (l : List Char) : countCh '"' (l ++ ['"']) = countCh '"' l + 1 := by
  simp [countCh, List.count_append]

/-- The quote-parity stage is idempotent. -/
lemma quoteFix_idem (l : List Char) : quoteFix (quoteFix l) = quoteFix l := by
  by_cases h : countCh '"' l % 2 = 1
  · have h1 : quoteFix l = l ++ ['"'] := by rw [quoteFix, if_pos h]
    have h2 : countCh '"' (l ++ ['"']) % 2 = 0 := by
      rw [countCh_append_quote]; omega
    rw [h1, quoteFix, if_neg (by omega)]
  · have h1 : quoteFix l = l := by rw [quoteFix, if_neg h]
    rw [h1, h1]

/-- The control-character normalization loop is idempotent, from any
quote/escape state. -/
lemma ctrlGo_idem : ∀ (l : List Char) (inS esc : Bool),
    ctrlGo inS esc (ctrlGo inS esc l) = ctrlGo inS esc l := by
  intro l
  induction l with
  | nil => intro inS esc; rfl
  | cons c cs ih =>
    intro inS esc
    cases esc with
    | true =>
      show ctrlGo inS true (ctrlGo inS true (c :: cs)) = ctrlGo inS true (c :: cs)
      rw [ctrlGo, if_pos rfl, ctrlGo, if_pos rfl, ih]
    | false =>
      by_cases hb : c = '\\'
      · subst hb
        rw [ctrlGo, if_neg (by simp), if_pos rfl]
        rw [ctrlGo, if_neg (by simp), if_pos rfl]
        rw [show ctrlGo inS true (ctrlGo inS true cs) = ctrlGo inS true cs from ih inS true]
      · by_cases hq : c = '"'
        · subst hq
          rw [ctrlGo, if_neg (by simp), if_neg (by simp [hb]), if_pos rfl]
          rw [ctrlGo, if_neg (by simp), if_neg (by simp [hb]), if_pos rfl, ih]
        · by_cases hn : inS = true ∧ c = '\n'
          · rcases hn with ⟨hS, hc⟩
            subst hS hc
            rw [ctrlGo, if_neg (by simp), if_neg (by simp), if_neg (by simp),
              if_pos ⟨rfl, rfl⟩]
            rw [ctrlGo, if_neg (by simp), if_pos rfl]
            rw [show ctrlGo true true ('n' :: ctrlGo true false cs) =
                  'n' :: ctrlGo true false cs from by rw [ctrlGo, if_pos rfl, ih]]
          · by_cases ht : inS = true ∧ c = '\t'
            · rcases ht with ⟨hS, hc⟩
              subst hS hc
              rw [ctrlGo, if_neg (by simp), if_neg (by simp), if_neg (by simp),
                if_neg (by simp), if_pos ⟨rfl, rfl⟩]
              rw [ctrlGo, if_neg (by simp), if_neg (by simp), if_neg (by simp),
                if_neg (by simp), if_neg (by simp), if_neg (by simp), ih]
            · by_cases hr : inS = true ∧ c = '\r'
              · rcases hr with ⟨hS, hc⟩
                subst hS hc
                rw [ctrlGo, if_neg (by simp), if_neg (by simp), if_neg (by simp),
                  if_neg (by simp), if_neg (by simp), if_pos ⟨rfl, rfl⟩, ih]
              · rw [ctrlGo, if_neg (by simp), if_neg (by simp [hb]), if_neg (by simp [hq]),
                  if_neg hn, if_neg ht, if_neg hr]
                rw [ctrlGo, if_neg (by simp), if_neg (by simp [hb]), if_neg (by simp [hq]),
                  if_neg hn, if_neg ht, if_neg hr, ih]

/-- Taking while different from a character stops exactly at its first
occurrence. -/
lemma takeWhile_ne_concat (c : Char) :
    ∀ mid : List Char, c ∉ mid → (mid ++ [c]).takeWhile (fun x => x ≠ c) = mid := by
  intro mid
  induction mid with
  | nil => intro _; simp [List.takeWhile]
  | cons m ms ih =>
    intro h
    have hm : m ≠ c := fun hx => h (hx ▸ List.mem_cons_self m ms)
    have hms : c ∉ ms := fun hx => h (List.mem_cons_of_mem m hx)
    rw [List.cons_append, List.takeWhile_cons, if_pos (by simp [hm]), ih hms]

/-- Trim is the identity on a text with non-whitespace first and last
characters. -/
lemma trimChars_shape (o c : Char) (mid : List Char)
    (ho : isRegexWs o = false) (hc : isRegexWs c = false) :
    trimChars (o :: (mid ++ [c])) = o :: (mid ++ [c]) := by
  unfold trimChars
  rw [List.dropWhile_cons, ho]
  simp only [Bool.false_eq_true, if_false]
  rw [show (o :: (mid ++ [c])).reverse = c :: (o :: mid).reverse from by
    rw [show o :: (mid ++ [c]) = (o :: mid) ++ [c] from rfl, List.reverse_append]; rfl]
  rw [List.dropWhile_cons, hc]
  simp

/-- The greedy array regex matches a whole bracketed text. -/
lemma greedyArrayMatch_shape (mid : List Char) :
    greedyArrayMatch ('[' :: (mid ++ [']'])) = some ('[' :: (mid ++ [']'])) := by
  rw [greedyArrayMatch, if_pos rfl]
  have hrev : (mid ++ [']']).reverse = ']' :: mid.reverse := by
    rw [List.reverse_append]; rfl
  simp [hrev, List.takeWhile_cons]

/-- The lazy object regex matches a whole braced text whose interior has
no close brace. -/
lemma nonGreedyObjMatch_shape (mid : List Char) (h : '}' ∉ mid) :
    nonGreedyObjMatch ('{' :: (mid ++ ['}'])) = some ('{' :: (mid ++ ['}'])) := by
  rw [nonGreedyObjMatch, if_pos rfl]
  rw [takeWhile_ne_concat '}' mid h]
  rw [if_neg (by simp)]

/-! ## Claim C1 -/

/-- C1, counterexample.  The repair-and-parse operation is not total:
on the caller-reachable text open-brace test_files-key colon
bracket-bracket-close-bracket close-brace, the direct repair fails, no
candidate parses, and the Envelope Fallback's lazy array pattern
captures an unbalanced span, so the returned envelope string does not
parse and the caller's parse throws (modelled as `none`). -/
theorem C1_counterexample :
    fixJsonString "\x7b\"test_files\": [[]\x7d" =
      "\x7b\"test_files\": \"test_files\": [[]\x7d" ∧
    parseJson (fixJsonString "\x7b\"test_files\": [[]\x7d") = none ∧
    generateAutotestsHandle "\x7b\"test_files\": [[]\x7d" = none :=
  ⟨rfl, rfl, rfl⟩

/-- C1, amended: fixJsonString itself always returns a string and the
Envelope Fallback never fails, and whenever neither fallback key
pattern matches the input text the caller's parse of the returned
string succeeds (the worst case being the predefined empty envelope);
but when a key pattern captures an unbalanced span the subsequent parse
can fail, so the composed repair-and-parse is not total. -/
theorem C1_fallback_totality (s : String)
    (h1 : findKeyArray "test_files".toList s.toList = none)
    (h2 : findKeyArray "test_cases".toList s.toList = none) :
    (parseJson (fixJsonString s)).isSome = true := by
  unfold fixJsonString
  simp only []
  by_cases hp : parseOk (simpleJsonRepair s) = true
  · rw [if_pos hp]
    unfold parseOk at hp
    exact hp
  · rw [if_neg hp]
    cases hf : (extractJsonCandidates s).find? parseOk with
    | some c =>
      simp only [hf]
      have hc := List.find?_some hf
      unfold parseOk at hc
      exact hc
    | none =>
      simp only [hf]
      unfold extremeJsonFallback
      rw [h1, h2]
      rfl

/-- C1, witness: the amended totality evaluated on a concrete prose
text matching neither fallback key pattern. -/
theorem C1_witness : (parseJson (fixJsonString "hello")).isSome = true :=
  C1_fallback_totality "hello" (by decide) (by decide)

/-! ## Claim C2 -/

/-- C2, counterexample.  Remaining candidate spans are not retried with
the fix sequence: for the text brace a-colon-one-comma brace space
brace, the only candidate has a trailing comma, its repaired form
parses, yet fixJsonString passes to the Envelope Fallback and returns
the empty envelope, because the candidate loop parses each span as-is
without applying the fixes. -/
theorem C2_counterexample :
    extractJsonCandidates "\x7b\"a\": 1,\x7d \x7d" = ["\x7b\"a\": 1,\x7d"] ∧
    parseOk "\x7b\"a\": 1,\x7d" = false ∧
    parseOk (simpleJsonRepair "\x7b\"a\": 1,\x7d") = true ∧
    fixJsonString "\x7b\"a\": 1,\x7d \x7d" = "\x7b\"test_files\": []\x7d" :=
  ⟨rfl, rfl, rfl, rfl⟩

/-- C2, amended: when the first repaired variant fails to parse, the
remaining candidate spans are tried as-is — raw parse attempts with no
textual fixes applied — longest-first, and only when every candidate
fails to parse does control pass to the Envelope Fallback. -/
theorem C2_candidates_raw (s : String)
    (hp : parseOk (simpleJsonRepair s) = false)
    (hc : ∀ c ∈ extractJsonCandidates s, parseOk c = false) :
    fixJsonString s = extremeJsonFallback s := by
  unfold fixJsonString
  simp only []
  rw [if_neg (by simp [hp])]
  have hf : (extractJsonCandidates s).find? parseOk = none := by
    rw [List.find?_eq_none]
    intro x hx
    simp [hc x hx]
  simp only [hf]

/-- C2, witness: the amended exhaustion rule evaluated on a concrete
text with no parsing candidate. -/
theorem C2_witness : fixJsonString "hi" = extremeJsonFallback "hi" :=
  C2_candidates_raw "hi" (by decide) (by decide)

/-! ## Claim C4 -/

/-- C4, confirmed.  The candidate sequence is pairwise sorted by
descending length for every input; the repair loop returns the first
candidate that parses when the direct repaired variant fails; and on a
concrete text holding two disjoint balanced top-level objects that both
parse, the longer object's text — and hence its value — is returned. -/
theorem C4_longest_preference :
    (∀ s : String, (extractJsonCandidates s).Pairwise (fun a b => b.length ≤ a.length)) ∧
    (∀ s c : String, parseOk (simpleJsonRepair s) = false →
      (extractJsonCandidates s).find? parseOk = some c →
      fixJsonString s = c ∧ parseOk c = true) ∧
    (extractJsonCandidates "x \x7b\"a\":1\x7d y \x7b\"bb\":22\x7d z" =
        ["\x7b\"bb\":22\x7d", "\x7b\"a\":1\x7d"] ∧
      fixJsonString "x \x7b\"a\":1\x7d y \x7b\"bb\":22\x7d z" = "\x7b\"bb\":22\x7d" ∧
      parseJson "\x7b\"bb\":22\x7d" = some (Json.obj [("bb", Json.num "22")])) := by
  refine ⟨?_, ?_, rfl, rfl, rfl⟩
  · intro s
    unfold extractJsonCandidates
    simp only []
    exact pairwise_sortByLenDesc _
  · intro s c hp hf
    refine ⟨?_, List.find?_some hf⟩
    unfold fixJsonString
    simp only []
    rw [if_neg (by simp [hp])]
    simp only [hf]

/-- C4, witness: the first-parsing-candidate rule evaluated on the
concrete two-object text. -/
theorem C4_witness :
    fixJsonString "x \x7b\"a\":1\x7d y \x7b\"bb\":22\x7d z" = "\x7b\"bb\":22\x7d" ∧
    parseOk "\x7b\"bb\":22\x7d" = true :=
  C4_longest_preference.2.1 "x \x7b\"a\":1\x7d y \x7b\"bb\":22\x7d z" "\x7b\"bb\":22\x7d"
    (by decide) (by decide)

/-! ## Claim C3 -/

/-- C3, counterexample.  The claim says a closing quote is appended if
and only if the count of unescaped quotes (quotes preceded by a
backslash excluded) is odd.  On the two-character text backslash-quote
the unescaped count is zero (even), yet the repairer appends a quote,
because the source counts every quote character. -/
theorem C3_counterexample :
    specUnescapedQuoteCount none "\\\"".toList % 2 = 0 ∧
    simpleJsonRepair "\\\"" = "\\\"" ++ "\"" :=
  ⟨rfl, rfl⟩

/-- C3, amended: the quote-parity stage of the Structural Repairer
appends exactly one closing quote if and only if the total count of
quote characters — escaped quotes included — in the text reaching that
stage is odd, and otherwise leaves the text unchanged; afterwards the
total quote count is always even. -/
theorem C3_total_quote_parity (l : List Char) :
    (countCh '"' l % 2 = 1 → quoteFix l = l ++ ['"']) ∧
    (countCh '"' l % 2 = 0 → quoteFix l = l) ∧
    countCh '"' (quoteFix l) % 2 = 0 := by
  refine ⟨fun h => by rw [quoteFix, if_pos h],
    fun h => by rw [quoteFix, if_neg (by omega)], ?_⟩
  by_cases h : countCh '"' l % 2 = 1
  · rw [quoteFix, if_pos h, countCh_append_quote]; omega
  · rw [quoteFix, if_neg h]; omega

/-- C3, witness: the amended parity rule evaluated on concrete inputs
with an odd and with an even total quote count. -/
theorem C3_witness :
    quoteFix "\"".toList = "\"".toList ++ ['"'] ∧ quoteFix "ab".toList = "ab".toList :=
  ⟨(C3_total_quote_parity "\"".toList).1 (by decide),
   (C3_total_quote_parity "ab".toList).2.1 (by decide)⟩

/-! ## Claim C7 -/

/-- C7, counterexample.  The composed fix sequence is not idempotent:
on the text comma-comma-bracket one application removes one trailing
separator and a second application removes another, because the global
regex scan resumes after each match and does not reexamine the
rewritten region. -/
theorem C7_counterexample :
    simpleJsonRepair (simpleJsonRepair ",,]") ≠ simpleJsonRepair ",,]" := by decide

/-- C7, amended: the composed fix sequence is not idempotent as a
whole; of its textual stages, the control-character normalization pass
and the quote-parity repair are idempotent (the former from every
quote/escape scanner state). -/
theorem C7_stage_idempotence :
    (∀ (inS esc : Bool) (l : List Char), ctrlGo inS esc (ctrlGo inS esc l) = ctrlGo inS esc l) ∧
    (∀ l : List Char, quoteFix (quoteFix l) = quoteFix l) :=
  ⟨fun inS esc l => ctrlGo_idem l inS esc, quoteFix_idem⟩

/-! ## Claim C8 -/

/-- C8, counterexample.  For a text whose only top-level balanced
structure is an array, the Candidate Locator returns the empty
sequence, not a non-empty one: the scan reacts to braces only. -/
theorem C8_counterexample : extractJsonCandidates "[1, 2, 3]" = [] := rfl

/-- C8, amended: the Candidate Locator records only object-shaped
top-level spans; any text containing no object-open brace at all — in
particular a pure top-level array — yields the empty candidate
sequence, and the caller proceeds to the Envelope Fallback. -/
theorem C8_objects_only (s : String) (h : '{' ∉ s.toList) : extractJsonCandidates s = [] := by
  unfold extractJsonCandidates
  rcases candGo_no_open s.toList candInit 0 h rfl with ⟨h1, _⟩
  simp only []
  rw [h1]
  rfl

/-- C8, witness: the amended statement evaluated on a concrete
brace-free text. -/
theorem C8_witness : extractJsonCandidates "[7]" = [] :=
  C8_objects_only "[7]" (by decide)

/-! ## Claim C5 -/

/-- C5, counterexample.  Idempotence of direct success fails on the
autotest path: the nested valid object brace a-colon-brace-brace-brace
is truncated by the non-greedy object regex at its first close brace,
the truncation does not parse, and the pipeline ends in the empty
envelope — a different value from what a standard parser returns. -/
theorem C5_counterexample :
    parseJson "\x7b\"a\":\x7b\x7d\x7d" = some (Json.obj [("a", Json.obj [])]) ∧
    generateAutotestsHandle "\x7b\"a\":\x7b\x7d\x7d" =
      some (Json.obj [("test_files", Json.arr [])]) ∧
    Json.obj [("test_files", Json.arr [])] ≠ Json.obj [("a", Json.obj [])] := by
  refine ⟨rfl, rfl, ?_⟩
  intro h
  simp only [Json.obj.injEq, List.cons.injEq, Prod.mk.injEq] at h
  exact absurd h.1.1 (by decide)

/-- C5, amended: zero-transformation direct success holds on the
test-case path for every text that is exactly a valid array (the
greedy array regex then matches the whole text); on the autotest path
it holds only for a valid object whose first close brace is its final
character (so the non-greedy regex captures the whole text) and whose
decoded value has a truthy test_files member; nested objects on the
autotest path are truncated and transformed. -/
theorem C5_direct_success :
    (∀ (mid : List Char) (xs : List Json),
      parseJson (String.mk ('[' :: (mid ++ [']']))) = some (Json.arr xs) →
      generateTestCasesHandle (String.mk ('[' :: (mid ++ [']']))) = some xs) ∧
    (∀ (mid : List Char) (v : Json), '}' ∉ mid →
      parseJson (String.mk ('{' :: (mid ++ ['}']))) = some v →
      jsTruthy (jsGet v "test_files") = true →
      generateAutotestsHandle (String.mk ('{' :: (mid ++ ['}']))) = some v) := by
  constructor
  · intro mid xs hp
    unfold generateTestCasesHandle
    simp only [show (String.mk ('[' :: (mid ++ [']']))).toList = '[' :: (mid ++ [']']) from rfl,
      trimChars_shape '[' ']' mid rfl rfl, greedyArrayMatch_shape, hp]
  · intro mid v hmem hp ht
    unfold generateAutotestsHandle
    simp only [show (String.mk ('{' :: (mid ++ ['}']))).toList = '{' :: (mid ++ ['}']) from rfl,
      trimChars_shape '{' '}' mid rfl rfl, nonGreedyObjMatch_shape mid hmem, hp, ht]
    simp

/-- C5, witness: the amended direct-success rules evaluated on a
concrete flat array and a concrete flat test_files object. -/
theorem C5_witness :
    generateTestCasesHandle "[1]" = some [Json.num "1"] ∧
    generateAutotestsHandle "\x7b\"test_files\": [1]\x7d" =
      some (Json.obj [("test_files", Json.arr [Json.num "1"])]) :=
  ⟨C5_direct_success.1 ['1'] [Json.num "1"] rfl,
   C5_direct_success.2 "\"test_files\": [1]".toList
     (Json.obj [("test_files", Json.arr [Json.num "1"])]) (by decide) rfl rfl⟩

/-! ## Claim C6 -/

/-- C6, confirmed.  The candidate scan never counts a brace inside a
string literal toward depth (the step is the identity there), an
escaped quote does not toggle the in-string flag, an escaped backslash
leaves a following quote live, and a concrete object whose string value
contains a close brace is located as one whole span. -/
theorem C6_string_immunity :
    (∀ (st : CandSt) (i : Nat) (c : Char), st.inStr = true → st.esc = false →
      c ≠ '"' → c ≠ '\\' → candStep st (i, c) = st) ∧
    (∀ (st : CandSt) (i j : Nat), st.esc = false →
      candStep (candStep st (i, '\\')) (j, '"') = st) ∧
    (∀ (st : CandSt) (i j k : Nat), st.esc = false →
      candStep (candStep (candStep st (i, '\\')) (j, '\\')) (k, '"') =
        { st with inStr := !st.inStr }) ∧
    extractJsonCandidates "\x7b\"a\": \"\x7d\"\x7d" = ["\x7b\"a\": \"\x7d\"\x7d"] := by
  refine ⟨?_, ?_, ?_, rfl⟩
  · intro st i c hS hE hq hb
    simp [candStep, hS, hE, hq, hb]
  · intro st i j hE
    rcases st with ⟨iS, es, dp, sp, sps⟩
    simp only at hE
    subst hE
    simp [candStep]
  · intro st i j k hE
    rcases st with ⟨iS, es, dp, sp, sps⟩
    simp only at hE
    subst hE
    simp [candStep]

/-- C6, witness: the in-string identity step and the escaped-quote step
evaluated at concrete scanner states. -/
theorem C6_witness :
    candStep ⟨true, false, 0, -1, []⟩ (5, '{') = ⟨true, false, 0, -1, []⟩ ∧
    candStep (candStep ⟨true, false, 2, -1, []⟩ (0, '\\')) (1, '"') = ⟨true, false, 2, -1, []⟩ :=
  ⟨C6_string_immunity.1 ⟨true, false, 0, -1, []⟩ 5 '{' rfl rfl (by decide) (by decide),
   C6_string_immunity.2.1 ⟨true, false, 2, -1, []⟩ 0 1 rfl⟩

/-! ## Claim C9 -/

/-- C9, confirmed.  The Envelope Fallback checks the test_files pattern
before the test_cases pattern, so whenever the test_files pattern
matches — in particular when both match — the result is the single-key
test_files envelope; when neither matches the result is exactly the
empty envelope string; and on the concrete test-case-generation input
that reaches the fallback with neither pattern matching, the decoded
empty envelope has no test_cases key, so that caller fails its shape
check. -/
theorem C9_fallback_priority :
    (∀ (s : String) (m : List Char),
      findKeyArray "test_files".toList s.toList = some m →
      extremeJsonFallback s = "\x7b\"test_files\": " ++ String.mk m ++ "\x7d") ∧
    (∀ s : String, findKeyArray "test_files".toList s.toList = none →
      findKeyArray "test_cases".toList s.toList = none →
      extremeJsonFallback s = "\x7b\"test_files\": []\x7d") ∧
    (generateTestCasesHandle "[ \"a ]" = none ∧
      fixJsonString "\x7b \"test_cases\":  \"a  \x7d" = "\x7b\"test_files\": []\x7d" ∧
      parseJson "\x7b\"test_files\": []\x7d" = some (Json.obj [("test_files", Json.arr [])]) ∧
      jsGet (Json.obj [("test_files", Json.arr [])]) "test_cases" = none) := by
  refine ⟨?_, ?_, rfl, rfl, rfl, rfl⟩
  · intro s m h
    unfold extremeJsonFallback
    rw [h]
  · intro s h1 h2
    unfold extremeJsonFallback
    rw [h1, h2]

/-- C9, witness: the priority rule evaluated on a concrete text where
both key patterns match (test_files wins) and the empty-envelope rule
on a concrete text where neither matches. -/
theorem C9_witness :
    extremeJsonFallback "\"test_files\": [] \"test_cases\": []" =
      "\x7b\"test_files\": " ++ String.mk "\"test_files\": []".toList ++ "\x7d" ∧
    (findKeyArray "test_cases".toList "\"test_files\": [] \"test_cases\": []".toList).isSome
      = true ∧
    extremeJsonFallback "zzz" = "\x7b\"test_files\": []\x7d" :=
  ⟨C9_fallback_priority.1 "\"test_files\": [] \"test_cases\": []"
      "\"test_files\": []".toList (by decide),
   by decide,
   C9_fallback_priority.2.1 "zzz" (by decide) (by decide)⟩

/-! ## Claim C10 -/

/-- C10, confirmed.  The trailing-separator removal is a global regex
rewrite with no string-literal awareness: on a valid object whose
string value contains a comma directly followed by a closing bracket,
the repairer deletes that comma inside the string literal, changing the
decoded value. -/
theorem C10_regex_rewrites_in_strings :
    parseJson "\x7b\"a\": \",]\"\x7d" = some (Json.obj [("a", Json.str ",]")]) ∧
    simpleJsonRepair "\x7b\"a\": \",]\"\x7d" = "\x7b\"a\": \"]\"\x7d" ∧
    parseJson "\x7b\"a\": \"]\"\x7d" = some (Json.obj [("a", Json.str "]")]) :=
  ⟨rfl, rfl, rfl⟩

end Rutest
